import Mathlib

/-! Profiler (`tool::prof`): session recorder and scoped timer.

Shallow embedding of `src/Profiler.hpp`.

* `FileSystem` maps a path to the content of the file stored there.
* `Ofstream` is the part of `std::ofstream` the recorder relies on: the file the
  stream is attached to, its error state and its floating-point format flags.
  Content is observed after the stream's buffer has reached the file (the footer is
  written with `std::endl`, and the singleton's stream is flushed at teardown).
  Opening a path the operating system refuses is outside the model (the recorder
  never checks for it); the one failure that is modelled is the library's own:
  `open` on a stream that is already attached to a file.
* `DoubleOps` collects the operations on `double` the program uses; the recorder is
  parametric in it, and `Binary64.ops` is the IEEE-754 instance on finite values.
* Texts (labels, paths, file contents) are strings of characters; a `const char*`
  argument is taken to point to a well-encoded string.
-/

namespace tool.prof

/-! ## Environment: files and `std::ofstream` -/

/-- Files by path; `none` means that no file exists at the path. -/
abbrev FileSystem := String → Option String

/-- State of a `std::ofstream`. -/
structure Ofstream where
  /-- Path of the file the stream buffer is attached to (`is_open()`), if any. -/
  file : Option String
  /-- Whether `rdstate()` differs from `goodbit`. -/
  fail : Bool
  /-- Whether `floatfield` is `fixed`. -/
  fixed : Bool
  /-- Value of `precision()`. -/
  precision : Nat
  deriving DecidableEq, Repr

/-- A default-constructed `std::ofstream`. -/
def Ofstream.init : Ofstream :=
  { file := none, fail := false, fixed := false, precision := 6 }

/-- Effect of `std::ofstream::open(path)` with the default mode `ios_base::out`: when the
stream is already attached to a file the call fails and sets `failbit`, otherwise the
file is created empty (or truncated) and the error state is cleared. -/
def Ofstream.openFile (f : Ofstream) (fs : FileSystem) (path : String) :
    Ofstream × FileSystem :=
  match f.file with
  | some _ => ({ f with fail := true }, fs)
  | none => ({ f with file := some path, fail := false }, Function.update fs path (some ""))

/-- Effect of one formatted insertion `stream << text`: nothing is written unless the
stream is `good()`; inserting characters into a stream attached to no file sets
`badbit`; otherwise the characters are appended to the file. -/
def Ofstream.put (f : Ofstream) (fs : FileSystem) (text : String) : Ofstream × FileSystem :=
  if f.fail then (f, fs)
  else
    match f.file with
    | none => if text = "" then (f, fs) else ({ f with fail := true }, fs)
    | some path => (f, Function.update fs path (some ((fs path).getD "" ++ text)))

/-- Effect of `stream << std::setprecision(n) << std::fixed`; the manipulators change the
flags whatever the error state is. -/
def Ofstream.setFixed (f : Ofstream) (n : Nat) : Ofstream :=
  { f with precision := n, fixed := true }

/-! ## Operations on `double` -/

/-- The operations on `double` used by the recorder and by the timer. -/
structure DoubleOps (D : Type) where
  /-- Conversion `static_cast<double>(n)` of a signed 64-bit count. -/
  ofInt64 : Int → D
  /-- The literal `1000.0`. -/
  thousand : D
  /-- Division `a / b`. -/
  div : D → D → D
  /-- Subtraction `a - b`. -/
  sub : D → D → D
  /-- Characters produced by `stream << x` for the given `floatfield` (is it `fixed`?)
  and precision. -/
  format : Bool → Nat → D → String

/-! ## `class Profiler` -/

/-- Data members of `class Profiler`. -/
structure Profiler where
  /-- Session name. -/
  m_session : String
  /-- JSON file the recorder writes to. -/
  m_file : Ofstream
  /-- Whether a session has started. -/
  m_started : Bool
  deriving DecidableEq, Repr

/-- The recorder as constructed by `Profiler::singleton()` on first use. -/
def Profiler.init : Profiler :=
  { m_session := "", m_file := Ofstream.init, m_started := false }

/-- Text written by `Profiler::header`. -/
def headerText : String := "\x7b\"otherData\": \x7b\x7d,\"traceEvents\":[\n"

/-- Text written by `Profiler::footer` (`std::endl` contributes the newline). -/
def footerText : String := "\x7b\x7d ]\x7d\n"

/-- Model of `Profiler::header`. -/
def Profiler.header (p : Profiler) (fs : FileSystem) : Profiler × FileSystem :=
  let r := p.m_file.put fs "\x7b\"otherData\": \x7b\x7d,\"traceEvents\":[\n"
  ({ p with m_file := r.1 }, r.2)

/-- Model of `Profiler::footer`: the text, then `std::endl`. -/
def Profiler.footer (p : Profiler) (fs : FileSystem) : Profiler × FileSystem :=
  let r := p.m_file.put fs "\x7b\x7d ]\x7d"
  let r := r.1.put r.2 "\n"
  ({ p with m_file := r.1 }, r.2)

/-- Model of `Profiler::begin(name, filepath)`. -/
def Profiler.begin (p : Profiler) (fs : FileSystem) (name filepath : String) :
    Profiler × FileSystem :=
  let p := { p with m_started := true }
  let r := p.m_file.openFile fs filepath
  let p := { p with m_file := r.1.setFixed 3 }
  let r := p.header r.2
  ({ r.1 with m_session := name }, r.2)

/-- Model of `Profiler::end()`. -/
def Profiler.end_ (p : Profiler) (fs : FileSystem) : Profiler × FileSystem :=
  if !p.m_started then (p, fs)
  else
    let r := p.footer fs
    ({ r.1 with m_started := false }, r.2)

/-- Model of `Profiler::write(name, start, end, threadID)`: nine insertions in the
order of the source. -/
def Profiler.write {D : Type} (ops : DoubleOps D) (p : Profiler) (fs : FileSystem)
    (name : String) (start end_ : D) (threadID : Nat) : Profiler × FileSystem :=
  if !p.m_started then (p, fs)
  else
    let r := p.m_file.put fs "\x7b\"cat\":\"function\",\"dur\":"
    let r := r.1.put r.2 (ops.format r.1.fixed r.1.precision (ops.sub end_ start))
    let r := r.1.put r.2 ",\"name\":\""
    let r := r.1.put r.2 name
    let r := r.1.put r.2 "\",\"ph\":\"X\",\"pid\":0,\"tid\":"
    let r := r.1.put r.2 (toString threadID)
    let r := r.1.put r.2 ",\"ts\":"
    let r := r.1.put r.2 (ops.format r.1.fixed r.1.precision start)
    let r := r.1.put r.2 "\x7d,\n"
    ({ p with m_file := r.1 }, r.2)

/-! ## Sequences of calls -/

/-- Arguments of one call of `Profiler::write`. -/
structure Event (D : Type) where
  name : String
  start : D
  end_ : D
  threadID : Nat

/-- A call of one of the public methods of the recorder. -/
inductive Call (D : Type) where
  | begin (name filepath : String)
  | end_
  | write (ev : Event D)

/-- Effect of one call on the recorder and the files. -/
def Profiler.call {D : Type} (ops : DoubleOps D) (w : Profiler × FileSystem) :
    Call D → Profiler × FileSystem
  | .begin name filepath => w.1.begin w.2 name filepath
  | .end_ => w.1.end_ w.2
  | .write ev => w.1.write ops w.2 ev.name ev.start ev.end_ ev.threadID

/-- Effect of a sequence of calls, first call first. -/
def Profiler.run {D : Type} (ops : DoubleOps D) (w : Profiler × FileSystem)
    (calls : List (Call D)) : Profiler × FileSystem :=
  calls.foldl (Profiler.call ops) w

/-- One event line of the trace format (§6 of the specification): `dur`, `name`, `tid`
and `ts` are the texts of `<D>`, `<NAME>`, `<T>` and `<S>`. -/
def eventLine (dur name tid ts : String) : String :=
  "\x7b\"cat\":\"function\",\"dur\":" ++ dur ++ ",\"name\":\"" ++ name
    ++ "\",\"ph\":\"X\",\"pid\":0,\"tid\":" ++ tid ++ ",\"ts\":" ++ ts ++ "\x7d,\n"

/-- The event line of an event: durations and timestamps in fixed notation with three
decimals, the thread identifier in decimal. -/
def Event.line {D : Type} (ops : DoubleOps D) (ev : Event D) : String :=
  eventLine (ops.format true 3 (ops.sub ev.end_ ev.start)) ev.name (toString ev.threadID)
    (ops.format true 3 ev.start)

/-- Concatenation of the event lines of a list of events, in order. -/
def eventLines {D : Type} (ops : DoubleOps D) (evs : List (Event D)) : String :=
  String.join (evs.map (Event.line ops))

/-- The files after `text` has been appended to the file at `path`. -/
def appendTo (fs : FileSystem) (path text : String) : FileSystem :=
  Function.update fs path (some ((fs path).getD "" ++ text))

/-! ## `class InstrumentationTimer` -/

/-- Data members of `class InstrumentationTimer`; a time point of the steady clock is
its count of nanoseconds since the clock's epoch. -/
structure InstrumentationTimer where
  /-- Reading of the clock at construction. -/
  m_startTimepoint : Int
  /-- Name of the function or scope. -/
  m_name : String
  deriving DecidableEq, Repr

/-- Model of the constructor; `now` is the value of `Clock::now()`. -/
def InstrumentationTimer.create (name : String) (now : Int) : InstrumentationTimer :=
  { m_startTimepoint := now, m_name := name }

/-- Arguments `InstrumentationTimer::stop` passes to `Profiler::write`; `now` is the
value of `Clock::now()` and `tid` the hash of the identifier of the running thread. -/
def InstrumentationTimer.stopEvent {D : Type} (ops : DoubleOps D) (t : InstrumentationTimer)
    (now : Int) (tid : Nat) : Event D :=
  { name := t.m_name
    start := ops.div (ops.ofInt64 t.m_startTimepoint) ops.thousand
    end_ := ops.div (ops.ofInt64 now) ops.thousand
    threadID := tid }

/-- Model of `InstrumentationTimer::stop`, run by the destructor. -/
def InstrumentationTimer.stop {D : Type} (ops : DoubleOps D) (t : InstrumentationTimer)
    (now : Int) (tid : Nat) (p : Profiler) (fs : FileSystem) : Profiler × FileSystem :=
  p.write ops fs t.m_name
    (ops.div (ops.ofInt64 t.m_startTimepoint) ops.thousand)
    (ops.div (ops.ofInt64 now) ops.thousand)
    tid

/-- Code run by one thread, as far as timers are concerned. -/
inductive Block where
  /-- End of the enclosing scope. -/
  | done : Block
  /-- Code without timers during which the steady clock advances by `ns` nanoseconds,
  followed by the rest of the scope. -/
  | work (ns : Nat) (next : Block) : Block
  /-- A scope opened by `PROFILE_SCOPE(name)`: the timer is constructed, `body` runs, the
  timer is destroyed at the exit of the scope; then comes the rest of the enclosing scope. -/
  | scope (name : String) (body : Block) (next : Block) : Block
  deriving Repr

/-- State of a running thread: reading of the steady clock, recorder, files. -/
structure Machine where
  now : Int
  prof : Profiler
  fs : FileSystem

/-- Execution of a block by the thread whose identifier hashes to `tid`. -/
def Block.exec {D : Type} (ops : DoubleOps D) (tid : Nat) : Block → Machine → Machine
  | .done, m => m
  | .work ns next, m => next.exec ops tid { m with now := m.now + ns }
  | .scope name body next, m =>
      let t := InstrumentationTimer.create name m.now
      let m1 := body.exec ops tid m
      let r := t.stop ops m1.now tid m1.prof m1.fs
      next.exec ops tid { m1 with prof := r.1, fs := r.2 }

/-- Reading of the clock after a block that started at `now`. -/
def Block.finish : Block → Int → Int
  | .done, now => now
  | .work ns next, now => next.finish (now + ns)
  | .scope _ body next, now => next.finish (body.finish now)

/-- Events of the timers of a block in the order of their scope exits. -/
def Block.exitEvents {D : Type} (ops : DoubleOps D) (tid : Nat) : Block → Int → List (Event D)
  | .done, _ => []
  | .work ns next, now => next.exitEvents ops tid (now + ns)
  | .scope name body next, now =>
      body.exitEvents ops tid now
        ++ (InstrumentationTimer.create name now).stopEvent ops (body.finish now) tid
        :: next.exitEvents ops tid (body.finish now)

/-- Sequence of two blocks. -/
def Block.append : Block → Block → Block
  | .done, b => b
  | .work ns next, b => .work ns (Block.append next b)
  | .scope name body next, b => .scope name body (Block.append next b)

/-- Last character of a text that is not white space, if any. -/
def lastVisible (text : String) : Option Char :=
  (text.data.reverse.dropWhile Char.isWhitespace).head?

/-! ## IEEE-754 binary64 on finite values

A finite `double` is represented by the rational number it denotes. The results of the
operations are rounded to nearest, ties to even, to 53 significant bits, with the gradual
underflow of the format. Overflow to infinity, NaN and the sign of zero are not
represented: the model is exact as long as the magnitudes stay below `2 ^ 1024`, which
holds for the conversion of a 64-bit count, for its quotient by `1000.0` and for the
difference of two such quotients. -/

namespace Binary64

/-- Nearest integer of a rational, ties to the even neighbour. -/
def roundHalfEven (q : ℚ) : ℤ :=
  if q - ⌊q⌋ < 1 / 2 then ⌊q⌋
  else if 1 / 2 < q - ⌊q⌋ then ⌊q⌋ + 1
  else if ⌊q⌋ % 2 = 0 then ⌊q⌋ else ⌊q⌋ + 1

/-- Exponent of the unit in the last place for a magnitude `a`: 52 below the exponent of
the binade of `a`, and never below that of the subnormal numbers. -/
def ulpExponent (a : ℚ) : ℤ := max (Int.log 2 a) (-1022) - 52

/-- Rounding of a magnitude to a multiple of its unit in the last place. -/
def roundMagnitude (a : ℚ) : ℚ := roundHalfEven (a / 2 ^ ulpExponent a) * 2 ^ ulpExponent a

/-- Rounding to binary64: the magnitude is rounded, the sign is kept. -/
def round (x : ℚ) : ℚ := if x < 0 then -roundMagnitude (-x) else roundMagnitude x

/-- Characters of `x` in fixed notation with `precision` decimals, as `printf("%.*f")`
produces them: the exact value rounded to nearest, ties to even. -/
def formatFixed (precision : Nat) (x : ℚ) : String :=
  let n : Nat := (roundHalfEven (|x| * 10 ^ precision)).toNat
  let digits := toString (n % 10 ^ precision)
  (if x < 0 then "-" else "") ++ toString (n / 10 ^ precision)
    ++ (if precision = 0 then ""
        else "." ++ String.mk (List.replicate (precision - digits.length) '0') ++ digits)

/-- The operations of binary64 on finite values, division by zero apart. The general
notation (the default of a stream, used when `floatfield` is not `fixed`) is left as the
parameter `general`. -/
def ops (general : Nat → ℚ → String) : DoubleOps ℚ :=
  { ofInt64 := fun n => round n
    thousand := 1000
    div := fun a b => round (a / b)
    sub := fun a b => round (a - b)
    format := fun fixed precision x =>
      if fixed then formatFixed precision x else general precision x }

end Binary64

/-- Binary64 operations used in the examples; the general notation, which the recorder
never uses once `begin` has run, is left empty. -/
def exampleOps : DoubleOps ℚ := Binary64.ops (fun _ _ => "")

/-! ## Facts about the stream and the recorder -/

theorem join_cons (a : String) (l : List String) : String.join (a :: l) = a ++ String.join l := by
  apply String.ext
  simp [String.data_join]

theorem eventLines_nil {D : Type} (ops : DoubleOps D) : eventLines ops [] = "" := rfl

theorem eventLines_cons {D : Type} (ops : DoubleOps D) (ev : Event D) (evs : List (Event D)) :
    eventLines ops (ev :: evs) = ev.line ops ++ eventLines ops evs := by
  simp [eventLines, join_cons]

theorem eventLines_append {D : Type} (ops : DoubleOps D) (xs ys : List (Event D)) :
    eventLines ops (xs ++ ys) = eventLines ops xs ++ eventLines ops ys := by
  induction xs with
  | nil => simp [eventLines_nil]
  | cons x xs ih => simp [eventLines_cons, ih, String.append_assoc]

theorem appendTo_appendTo (fs : FileSystem) (path a b : String) :
    appendTo (appendTo fs path a) path b = appendTo fs path (a ++ b) := by
  simp [appendTo, String.append_assoc]

theorem put_good (f : Ofstream) (fs : FileSystem) (path text : String)
    (hfile : f.file = some path) (hgood : f.fail = false) :
    f.put fs text = (f, appendTo fs path text) := by
  simp [Ofstream.put, hfile, hgood, appendTo]

theorem put_fail (f : Ofstream) (fs : FileSystem) (text : String) (hfail : f.fail = true) :
    f.put fs text = (f, fs) := by
  simp [Ofstream.put, hfail]

theorem write_inactive {D : Type} (ops : DoubleOps D) (p : Profiler) (fs : FileSystem)
    (name : String) (start end_ : D) (threadID : Nat) (h : p.m_started = false) :
    p.write ops fs name start end_ threadID = (p, fs) := by
  simp [Profiler.write, h]

theorem write_good {D : Type} (ops : DoubleOps D) (p : Profiler) (fs : FileSystem)
    (path name : String) (start end_ : D) (threadID : Nat)
    (hstarted : p.m_started = true) (hfile : p.m_file.file = some path)
    (hgood : p.m_file.fail = false) :
    p.write ops fs name start end_ threadID
      = (p, appendTo fs path
          (eventLine (ops.format p.m_file.fixed p.m_file.precision (ops.sub end_ start)) name
            (toString threadID) (ops.format p.m_file.fixed p.m_file.precision start))) := by
  obtain ⟨s, f, st⟩ := p
  simp only at hstarted hfile hgood
  subst hstarted
  simp [Profiler.write, put_good _ _ path _ hfile hgood, appendTo_appendTo, eventLine,
    String.append_assoc]

theorem write_fail {D : Type} (ops : DoubleOps D) (p : Profiler) (fs : FileSystem)
    (name : String) (start end_ : D) (threadID : Nat) (hfail : p.m_file.fail = true) :
    p.write ops fs name start end_ threadID = (p, fs) := by
  obtain ⟨s, f, st⟩ := p
  simp only at hfail
  cases st
  · simp [Profiler.write]
  · simp [Profiler.write, put_fail _ _ _ hfail]

theorem write_good_fixed {D : Type} (ops : DoubleOps D) (p : Profiler) (fs : FileSystem)
    (path : String) (ev : Event D)
    (hstarted : p.m_started = true) (hfile : p.m_file.file = some path)
    (hgood : p.m_file.fail = false) (hfixed : p.m_file.fixed = true)
    (hprec : p.m_file.precision = 3) :
    p.write ops fs ev.name ev.start ev.end_ ev.threadID = (p, appendTo fs path (ev.line ops)) := by
  rw [write_good ops p fs path _ _ _ _ hstarted hfile hgood, hfixed, hprec]
  rfl

/-- Writes of a recorder whose session is active on a healthy stream attached to `path`,
with the format flags `begin` selects, append the event lines to the file. -/
theorem run_writes_good {D : Type} (ops : DoubleOps D) (evs : List (Event D)) (p : Profiler)
    (fs : FileSystem) (path text : String)
    (hstarted : p.m_started = true) (hfile : p.m_file.file = some path)
    (hgood : p.m_file.fail = false) (hfixed : p.m_file.fixed = true)
    (hprec : p.m_file.precision = 3) :
    Profiler.run ops (p, appendTo fs path text) (evs.map Call.write)
      = (p, appendTo fs path (text ++ eventLines ops evs)) := by
  induction evs generalizing text with
  | nil => simp [Profiler.run, eventLines_nil]
  | cons ev evs ih =>
    have h := ih (text ++ ev.line ops)
    simp only [Profiler.run, List.map_cons, List.foldl_cons, Profiler.call] at h ⊢
    rw [write_good_fixed ops p _ path ev hstarted hfile hgood hfixed hprec, appendTo_appendTo, h,
      eventLines_cons, String.append_assoc]

/-- Writes on a stream in error state, or outside a session, change nothing. -/
theorem run_writes_dead {D : Type} (ops : DoubleOps D) (evs : List (Event D)) (p : Profiler)
    (fs : FileSystem) (h : p.m_started = false ∨ p.m_file.fail = true) :
    Profiler.run ops (p, fs) (evs.map Call.write) = (p, fs) := by
  induction evs with
  | nil => rfl
  | cons ev evs ih =>
    simp only [Profiler.run, List.map_cons, List.foldl_cons, Profiler.call] at ih ⊢
    rcases h with h | h
    · rw [write_inactive ops p fs _ _ _ _ h]; exact ih
    · rw [write_fail ops p fs _ _ _ _ h]; exact ih

theorem run_append {D : Type} (ops : DoubleOps D) (w : Profiler × FileSystem)
    (xs ys : List (Call D)) :
    Profiler.run ops w (xs ++ ys) = Profiler.run ops (Profiler.run ops w xs) ys := by
  simp [Profiler.run]

/-- A session begun on a stream attached to no file: the file is created with the header
and the recorder is active on a healthy stream. -/
theorem begin_closed (p : Profiler) (fs : FileSystem) (name path : String)
    (h : p.m_file.file = none) :
    p.begin fs name path
      = ({ m_session := name
           m_file := { file := some path, fail := false, fixed := true, precision := 3 }
           m_started := true },
         appendTo (Function.update fs path (some "")) path headerText) := by
  obtain ⟨s, f, st⟩ := p
  obtain ⟨ff, fl, fx, pr⟩ := f
  simp only at h
  subst h
  simp [Profiler.begin, Ofstream.openFile, Ofstream.setFixed, Profiler.header, Ofstream.put,
    appendTo, headerText]

/-- A session begun on a stream that is still attached to a file: `open` fails, nothing
is written and no file changes. -/
theorem begin_attached (p : Profiler) (fs : FileSystem) (name path old : String)
    (h : p.m_file.file = some old) :
    p.begin fs name path
      = ({ m_session := name
           m_file := { file := some old, fail := true, fixed := true, precision := 3 }
           m_started := true },
         fs) := by
  obtain ⟨s, f, st⟩ := p
  obtain ⟨ff, fl, fx, pr⟩ := f
  simp only at h
  subst h
  simp [Profiler.begin, Ofstream.openFile, Ofstream.setFixed, Profiler.header, Ofstream.put]

theorem end_good (p : Profiler) (fs : FileSystem) (path : String)
    (hstarted : p.m_started = true) (hfile : p.m_file.file = some path)
    (hgood : p.m_file.fail = false) :
    p.end_ fs = ({ p with m_started := false }, appendTo fs path footerText) := by
  obtain ⟨s, f, st⟩ := p
  simp only at hstarted hfile hgood
  subst hstarted
  simp [Profiler.end_, Profiler.footer, put_good _ _ path _ hfile hgood, appendTo_appendTo,
    footerText]

theorem end_fail (p : Profiler) (fs : FileSystem) (hfail : p.m_file.fail = true) :
    p.end_ fs = ({ p with m_started := false }, fs) := by
  obtain ⟨s, f, st⟩ := p
  simp only at hfail
  cases st
  · simp [Profiler.end_]
  · simp [Profiler.end_, Profiler.footer, put_fail _ _ _ hfail]

/-! ## The recorder's contract -/

/-- C1 (P1, no-op when inactive): in a recorder state without an active session, a
sequence of `write` calls with arbitrary arguments leaves every file as it was (no byte
is written, no file is created or modified) and leaves the recorder unchanged, hence
inactive. -/
theorem write_noop_when_inactive {D : Type} (ops : DoubleOps D) (p : Profiler)
    (fs : FileSystem) (evs : List (Event D)) (h : p.m_started = false) :
    (Profiler.run ops (p, fs) (evs.map Call.write)).2 = fs
      ∧ (Profiler.run ops (p, fs) (evs.map Call.write)).1 = p
      ∧ (Profiler.run ops (p, fs) (evs.map Call.write)).1.m_started = false := by
  rw [run_writes_dead ops evs p fs (Or.inl h)]
  exact ⟨rfl, rfl, h⟩

theorem write_noop_when_inactive_witness :
    Profiler.init.m_started = false
      ∧ (Profiler.run exampleOps (Profiler.init, fun _ => none)
          ([⟨"foo", 1, 2, 7⟩, ⟨"bar", 5, 3, 9⟩].map Call.write)).2 = (fun _ => none)
      ∧ (Profiler.run exampleOps (Profiler.init, fun _ => none)
          ([⟨"foo", 1, 2, 7⟩, ⟨"bar", 5, 3, 9⟩].map Call.write)).1 = Profiler.init
      ∧ (Profiler.run exampleOps (Profiler.init, fun _ => none)
          ([⟨"foo", 1, 2, 7⟩, ⟨"bar", 5, 3, 9⟩].map Call.write)).1.m_started = false :=
  ⟨rfl, write_noop_when_inactive exampleOps Profiler.init (fun _ => none)
    [⟨"foo", 1, 2, 7⟩, ⟨"bar", 5, 3, 9⟩] rfl⟩

/-- Files and recorder after a complete session on a recorder whose stream is attached to
no file. -/
theorem session_closed {D : Type} (ops : DoubleOps D) (p : Profiler) (fs : FileSystem)
    (name path : String) (evs : List (Event D)) (h : p.m_file.file = none) :
    Profiler.run ops (p, fs) (Call.begin name path :: evs.map Call.write ++ [Call.end_])
      = ({ m_session := name
           m_file := { file := some path, fail := false, fixed := true, precision := 3 }
           m_started := false },
         Function.update fs path (some (headerText ++ eventLines ops evs ++ footerText))) := by
  have hb := begin_closed p fs name path h
  rw [show Call.begin name path :: evs.map Call.write ++ [Call.end_]
        = [Call.begin name path] ++ (evs.map Call.write ++ [Call.end_]) from rfl,
    run_append, run_append]
  rw [show Profiler.run ops (p, fs) [Call.begin name path] = p.begin fs name path from rfl, hb,
    run_writes_good ops evs _ _ path headerText rfl rfl rfl rfl rfl]
  rw [show ∀ w : Profiler × FileSystem, Profiler.run ops w [Call.end_] = w.1.end_ w.2 from
    fun _ => rfl]
  rw [end_good _ _ path rfl rfl rfl, appendTo_appendTo]
  simp [appendTo]

/-- C2 (wire format of a complete session): on a fresh recorder, `begin(name, path)`, one
`write` per event in order, then `end()` leave at `path` exactly the header line, one
line per event in call order with `dur` = end - start and `ts` = start in fixed notation
with three decimals, `tid` in decimal and `pid` the literal 0, then the footer line; there
are as many event lines as `write` calls. -/
theorem wire_format {D : Type} (ops : DoubleOps D) (fs : FileSystem) (name path : String)
    (evs : List (Event D)) :
    (Profiler.run ops (Profiler.init, fs)
        (Call.begin name path :: evs.map Call.write ++ [Call.end_])).2 path
      = some ("\x7b\"otherData\": \x7b\x7d,\"traceEvents\":[\n"
          ++ String.join (evs.map fun ev =>
              "\x7b\"cat\":\"function\",\"dur\":" ++ ops.format true 3 (ops.sub ev.end_ ev.start)
                ++ ",\"name\":\"" ++ ev.name
                ++ "\",\"ph\":\"X\",\"pid\":0,\"tid\":" ++ toString ev.threadID
                ++ ",\"ts\":" ++ ops.format true 3 ev.start ++ "\x7d,\n")
          ++ "\x7b\x7d ]\x7d\n")
      ∧ (evs.map fun ev =>
              "\x7b\"cat\":\"function\",\"dur\":" ++ ops.format true 3 (ops.sub ev.end_ ev.start)
                ++ ",\"name\":\"" ++ ev.name
                ++ "\",\"ph\":\"X\",\"pid\":0,\"tid\":" ++ toString ev.threadID
                ++ ",\"ts\":" ++ ops.format true 3 ev.start ++ "\x7d,\n").length = evs.length := by
  rw [session_closed ops Profiler.init fs name path evs rfl]
  refine ⟨?_, by simp⟩
  simp only [Function.update_same]
  rfl

/-- C3 (P2, idempotent end): in every recorder state, a second `end()` right after a
first one changes neither the files nor the recorder, so the footer is written at most
once. -/
theorem end_idempotent (p : Profiler) (fs : FileSystem) :
    (p.end_ fs).1.end_ (p.end_ fs).2 = p.end_ fs := by
  obtain ⟨s, f, st⟩ := p
  cases st <;> simp [Profiler.end_]

/-- The effect of a call on the files, the stream and the activity flag does not depend
on the stored session name. -/
theorem call_ignores_session {D : Type} (ops : DoubleOps D) (w1 w2 : Profiler × FileSystem)
    (c : Call D) (hfile : w1.1.m_file = w2.1.m_file) (hstarted : w1.1.m_started = w2.1.m_started)
    (hfs : w1.2 = w2.2) :
    (Profiler.call ops w1 c).1.m_file = (Profiler.call ops w2 c).1.m_file
      ∧ (Profiler.call ops w1 c).1.m_started = (Profiler.call ops w2 c).1.m_started
      ∧ (Profiler.call ops w1 c).2 = (Profiler.call ops w2 c).2 := by
  obtain ⟨⟨s1, f1, st1⟩, fs1⟩ := w1
  obtain ⟨⟨s2, f2, st2⟩, fs2⟩ := w2
  simp only at hfile hstarted hfs
  subst hfile hstarted hfs
  cases c with
  | begin name filepath => simp [Profiler.call, Profiler.begin, Profiler.header]
  | end_ => cases st1 <;> simp [Profiler.call, Profiler.end_, Profiler.footer]
  | write ev => cases st1 <;> simp [Profiler.call, Profiler.write]

theorem run_ignores_session {D : Type} (ops : DoubleOps D) (calls : List (Call D))
    (w1 w2 : Profiler × FileSystem)
    (hfile : w1.1.m_file = w2.1.m_file) (hstarted : w1.1.m_started = w2.1.m_started)
    (hfs : w1.2 = w2.2) :
    (Profiler.run ops w1 calls).1.m_file = (Profiler.run ops w2 calls).1.m_file
      ∧ (Profiler.run ops w1 calls).1.m_started = (Profiler.run ops w2 calls).1.m_started
      ∧ (Profiler.run ops w1 calls).2 = (Profiler.run ops w2 calls).2 := by
  induction calls generalizing w1 w2 with
  | nil => exact ⟨hfile, hstarted, hfs⟩
  | cons c calls ih =>
    obtain ⟨h1, h2, h3⟩ := call_ignores_session ops w1 w2 c hfile hstarted hfs
    exact ih _ _ h1 h2 h3

/-- C9 (the session name is not emitted): after `begin(n1, path)` and after
`begin(n2, path)` from the same state, any sequence of calls leaves the same files, the
same stream state and the same activity flag; the name only ends up in `m_session`. -/
theorem session_name_not_emitted {D : Type} (ops : DoubleOps D) (p : Profiler)
    (fs : FileSystem) (n1 n2 path : String) (calls : List (Call D)) :
    (Profiler.run ops (p.begin fs n1 path) calls).2
        = (Profiler.run ops (p.begin fs n2 path) calls).2
      ∧ (Profiler.run ops (p.begin fs n1 path) calls).1.m_file
        = (Profiler.run ops (p.begin fs n2 path) calls).1.m_file
      ∧ (Profiler.run ops (p.begin fs n1 path) calls).1.m_started
        = (Profiler.run ops (p.begin fs n2 path) calls).1.m_started
      ∧ (p.begin fs n1 path).1.m_session = n1 := by
  obtain ⟨h1, h2, h3⟩ := run_ignores_session ops calls (p.begin fs n1 path) (p.begin fs n2 path)
    (by simp [Profiler.begin, Profiler.header]) (by simp [Profiler.begin, Profiler.header])
    (by simp [Profiler.begin, Profiler.header])
  exact ⟨h3, h1, h2, rfl⟩

/-! ## A second session on the same recorder -/

/-- Files and recorder after a complete session begun while the stream is still attached
to the file of an earlier session: no file changes and the stream is left in error
state. -/
theorem session_attached {D : Type} (ops : DoubleOps D) (p : Profiler) (fs : FileSystem)
    (name path old : String) (evs : List (Event D)) (h : p.m_file.file = some old) :
    Profiler.run ops (p, fs) (Call.begin name path :: evs.map Call.write ++ [Call.end_])
      = ({ m_session := name
           m_file := { file := some old, fail := true, fixed := true, precision := 3 }
           m_started := false },
         fs) := by
  have hb := begin_attached p fs name path old h
  rw [show Call.begin name path :: evs.map Call.write ++ [Call.end_]
        = [Call.begin name path] ++ (evs.map Call.write ++ [Call.end_]) from rfl,
    run_append, run_append]
  rw [show Profiler.run ops (p, fs) [Call.begin name path] = p.begin fs name path from rfl, hb,
    run_writes_dead ops evs _ _ (Or.inr rfl)]
  rw [show ∀ w : Profiler × FileSystem, Profiler.run ops w [Call.end_] = w.1.end_ w.2 from
    fun _ => rfl]
  rw [end_fail _ _ rfl]

/-- Two complete sessions in a row on a fresh recorder: the first file holds the first
session, and the second session changes no file at all. -/
theorem two_sessions {D : Type} (ops : DoubleOps D) (fs : FileSystem)
    (n1 p1 n2 p2 : String) (e1 e2 : List (Event D)) :
    Profiler.run ops (Profiler.init, fs)
        ((Call.begin n1 p1 :: e1.map Call.write ++ [Call.end_])
          ++ (Call.begin n2 p2 :: e2.map Call.write ++ [Call.end_]))
      = ({ m_session := n2
           m_file := { file := some p1, fail := true, fixed := true, precision := 3 }
           m_started := false },
         Function.update fs p1 (some (headerText ++ eventLines ops e1 ++ footerText))) := by
  rw [run_append, session_closed ops Profiler.init fs n1 p1 e1 rfl,
    session_attached ops _ _ n2 p2 p1 e2 rfl]

/-- C4 (P3, truncation on begin) at the input `begin("A", "p.json"); write("foo", 1, 2, 7);
end(); begin("B", "p.json"); write("bar", 1, 2, 7); end()`: the file still holds the
first session, and not the header, event and footer of the second one. -/
theorem truncation_fails_on_second_session :
    (Profiler.run exampleOps (Profiler.init, fun _ => none)
        ((Call.begin "A" "p.json" :: [(⟨"foo", 1, 2, 7⟩ : Event ℚ)].map Call.write ++ [Call.end_])
          ++ (Call.begin "B" "p.json" :: [(⟨"bar", 1, 2, 7⟩ : Event ℚ)].map Call.write
            ++ [Call.end_]))).2 "p.json"
      = some (headerText ++ eventLines exampleOps [⟨"foo", 1, 2, 7⟩] ++ footerText)
    ∧ (Profiler.run exampleOps (Profiler.init, fun _ => none)
        ((Call.begin "A" "p.json" :: [(⟨"foo", 1, 2, 7⟩ : Event ℚ)].map Call.write ++ [Call.end_])
          ++ (Call.begin "B" "p.json" :: [(⟨"bar", 1, 2, 7⟩ : Event ℚ)].map Call.write
            ++ [Call.end_]))).2 "p.json"
      ≠ some (headerText ++ eventLines exampleOps [⟨"bar", 1, 2, 7⟩] ++ footerText) := by
  rw [two_sessions]
  refine ⟨by simp only [Function.update_same], ?_⟩
  simp only [Function.update_same]
  intro h
  have h2 := congrArg String.data (Option.some.inj h)
  simp [eventLines, join_cons, Event.line, eventLine, headerText, footerText] at h2

/-- C5 (scenario D, sequential sessions) at the input `begin("A", "a.json");
write("foo", 1, 2, 7); end(); begin("B", "b.json"); write("bar", 3, 4, 7); end()` with
no file at the start: `a.json` holds the first session and `b.json` does not exist. -/
theorem second_session_file_missing :
    (Profiler.run exampleOps (Profiler.init, fun _ => none)
        ((Call.begin "A" "a.json" :: [(⟨"foo", 1, 2, 7⟩ : Event ℚ)].map Call.write ++ [Call.end_])
          ++ (Call.begin "B" "b.json" :: [(⟨"bar", 3, 4, 7⟩ : Event ℚ)].map Call.write
            ++ [Call.end_]))).2 "b.json" = none
    ∧ (Profiler.run exampleOps (Profiler.init, fun _ => none)
        ((Call.begin "A" "a.json" :: [(⟨"foo", 1, 2, 7⟩ : Event ℚ)].map Call.write ++ [Call.end_])
          ++ (Call.begin "B" "b.json" :: [(⟨"bar", 3, 4, 7⟩ : Event ℚ)].map Call.write
            ++ [Call.end_]))).2 "a.json"
      = some (headerText ++ eventLines exampleOps [⟨"foo", 1, 2, 7⟩] ++ footerText) := by
  rw [two_sessions]
  refine ⟨?_, by simp only [Function.update_same]⟩
  have hne : "b.json" ≠ "a.json" := by decide
  dsimp only
  rw [Function.update_noteq hne]

/-! ## A session that is not ended -/

theorem eventLines_tail {D : Type} (ops : DoubleOps D) (evs : List (Event D)) (h : evs ≠ []) :
    ∃ text, eventLines ops evs = text ++ "\x7d,\n" := by
  rcases List.eq_nil_or_concat evs with h0 | ⟨front, ev, rfl⟩
  · exact absurd h0 h
  · refine ⟨eventLines ops front ++ ("\x7b\"cat\":\"function\",\"dur\":"
      ++ ops.format true 3 (ops.sub ev.end_ ev.start) ++ ",\"name\":\"" ++ ev.name
      ++ "\",\"ph\":\"X\",\"pid\":0,\"tid\":" ++ toString ev.threadID ++ ",\"ts\":"
      ++ ops.format true 3 ev.start), ?_⟩
    rw [List.concat_eq_append, eventLines_append, eventLines_cons, eventLines_nil]
    simp [Event.line, eventLine, String.append_assoc]

/-- The text of a session that was begun but not ended stops with a line break that
follows `[` (header line) or `,` (event line). -/
theorem unfinished_tail {D : Type} (ops : DoubleOps D) (evs : List (Event D)) :
    ∃ (front : List Char) (c : Char), (c = '[' ∨ c = ',')
      ∧ (headerText ++ eventLines ops evs).data = front ++ [c, '\n'] := by
  by_cases h : evs = []
  · subst h
    exact ⟨"\x7b\"otherData\": \x7b\x7d,\"traceEvents\":".data, '[', Or.inl rfl, by
      simp [eventLines_nil, headerText]⟩
  · obtain ⟨text, ht⟩ := eventLines_tail ops evs h
    exact ⟨headerText.data ++ text.data ++ ['\x7d'], ',', Or.inr rfl, by simp [ht]⟩

/-- First session of a recorder without `end()`: a session begun on a recorder whose
stream is attached to no file and followed by any number of `write` calls leaves at the
path the header and the event lines only: the text stops with the header line or with an event line ending in
`},` and a line break, it does not end with the footer, its last visible character is not
the closing brace of a JSON object; once `end()` is called on the active session the text
ends with the footer. -/
theorem missing_end_missing_footer {D : Type} (ops : DoubleOps D) (p : Profiler)
    (fs : FileSystem) (name path : String) (evs : List (Event D)) (h : p.m_file.file = none) :
    (Profiler.run ops (p, fs) (Call.begin name path :: evs.map Call.write)).2 path
        = some (headerText ++ eventLines ops evs)
      ∧ ((evs = [] ∧ headerText ++ eventLines ops evs
            = "\x7b\"otherData\": \x7b\x7d,\"traceEvents\":[\n")
          ∨ ∃ text, headerText ++ eventLines ops evs = text ++ "\x7d,\n")
      ∧ ¬ "\x7b\x7d ]\x7d".data <:+ (headerText ++ eventLines ops evs).data
      ∧ ¬ "\x7b\x7d ]\x7d\n".data <:+ (headerText ++ eventLines ops evs).data
      ∧ lastVisible (headerText ++ eventLines ops evs) ≠ some '\x7d'
      ∧ (Profiler.run ops (p, fs)
            (Call.begin name path :: evs.map Call.write ++ [Call.end_])).2 path
          = some (headerText ++ eventLines ops evs ++ "\x7b\x7d ]\x7d\n")
      ∧ "\x7b\x7d ]\x7d\n".data
          <:+ (headerText ++ eventLines ops evs ++ "\x7b\x7d ]\x7d\n").data := by
  obtain ⟨front, c, hc, htail⟩ := unfinished_tail ops evs
  refine ⟨?_, ?_, ?_, ?_, ?_, ?_, ?_⟩
  · rw [show Call.begin name path :: evs.map Call.write
          = [Call.begin name path] ++ evs.map Call.write from rfl, run_append,
      show Profiler.run ops (p, fs) [Call.begin name path] = p.begin fs name path from rfl,
      begin_closed p fs name path h,
      run_writes_good ops evs _ _ path headerText rfl rfl rfl rfl rfl]
    simp [appendTo]
  · by_cases h0 : evs = []
    · subst h0
      exact Or.inl ⟨rfl, rfl⟩
    · obtain ⟨text, ht⟩ := eventLines_tail ops evs h0
      exact Or.inr ⟨headerText ++ text, by rw [ht, String.append_assoc]⟩
  · rw [htail, ← List.reverse_prefix]
    rcases hc with rfl | rfl <;> simp
  · rw [htail, ← List.reverse_prefix]
    rcases hc with rfl | rfl <;> simp
  · rw [lastVisible, htail]
    rcases hc with rfl | rfl <;> simp [List.dropWhile]
  · rw [session_closed ops p fs name path evs h]
    simp [footerText]
  · exact ⟨(headerText ++ eventLines ops evs).data, by simp⟩

theorem missing_end_missing_footer_witness :
    Profiler.init.m_file.file = none
      ∧ (Profiler.run exampleOps (Profiler.init, fun _ => none)
          (Call.begin "S" "out.json" :: [(⟨"foo", 1, 2, 7⟩ : Event ℚ)].map Call.write)).2 "out.json"
        = some (headerText ++ eventLines exampleOps [⟨"foo", 1, 2, 7⟩])
      ∧ lastVisible (headerText ++ eventLines exampleOps [⟨"foo", 1, 2, 7⟩]) ≠ some '\x7d' :=
  have h := missing_end_missing_footer exampleOps Profiler.init (fun _ => none) "S" "out.json"
    [⟨"foo", 1, 2, 7⟩] rfl
  ⟨rfl, h.1, h.2.2.2.2.1⟩

/-- Calls after a `begin` issued while the stream is still attached to a file, without
`end()`: no file changes, and the session is active on a stream in error state. -/
theorem unended_attached {D : Type} (ops : DoubleOps D) (p : Profiler) (fs : FileSystem)
    (name path old : String) (evs : List (Event D)) (h : p.m_file.file = some old) :
    Profiler.run ops (p, fs) (Call.begin name path :: evs.map Call.write)
      = ({ m_session := name
           m_file := { file := some old, fail := true, fixed := true, precision := 3 }
           m_started := true },
         fs) := by
  rw [show Call.begin name path :: evs.map Call.write
        = [Call.begin name path] ++ evs.map Call.write from rfl, run_append,
    show Profiler.run ops (p, fs) [Call.begin name path] = p.begin fs name path from rfl,
    begin_attached p fs name path old h, run_writes_dead ops evs _ _ (Or.inr rfl)]

/-- C8 (missing `end()`) at the inputs `begin("A", "p.json"); end(); begin("B", "p.json");
write("bar", 1, 2, 7)` and `begin("A", "a.json"); end(); begin("B", "b.json");
write("bar", 1, 2, 7); end()` on a fresh recorder with no file: in the first run session
B is active and was not ended, yet the file at its path is header and footer of session A
and so ends with the footer; in the second run `end()` is called while session B is
active, yet no footer is written and `b.json` does not exist. -/
theorem unended_second_session_shows_footer :
    (Profiler.run exampleOps (Profiler.init, fun _ => none)
        ((Call.begin "A" "p.json" :: ([] : List (Event ℚ)).map Call.write ++ [Call.end_])
          ++ (Call.begin "B" "p.json" :: [(⟨"bar", 1, 2, 7⟩ : Event ℚ)].map Call.write))).2
          "p.json"
        = some ("\x7b\"otherData\": \x7b\x7d,\"traceEvents\":[\n" ++ "\x7b\x7d ]\x7d\n")
      ∧ "\x7b\x7d ]\x7d\n".data
          <:+ ("\x7b\"otherData\": \x7b\x7d,\"traceEvents\":[\n" ++ "\x7b\x7d ]\x7d\n").data
      ∧ (Profiler.run exampleOps (Profiler.init, fun _ => none)
        ((Call.begin "A" "p.json" :: ([] : List (Event ℚ)).map Call.write ++ [Call.end_])
          ++ (Call.begin "B" "p.json" :: [(⟨"bar", 1, 2, 7⟩ : Event ℚ)].map Call.write))).1.m_started
        = true
      ∧ (Profiler.run exampleOps (Profiler.init, fun _ => none)
        ((Call.begin "A" "a.json" :: ([] : List (Event ℚ)).map Call.write ++ [Call.end_])
          ++ (Call.begin "B" "b.json" :: [(⟨"bar", 1, 2, 7⟩ : Event ℚ)].map Call.write))).1.m_started
        = true
      ∧ (Profiler.run exampleOps (Profiler.init, fun _ => none)
        ((Call.begin "A" "a.json" :: ([] : List (Event ℚ)).map Call.write ++ [Call.end_])
          ++ (Call.begin "B" "b.json" :: [(⟨"bar", 1, 2, 7⟩ : Event ℚ)].map Call.write
            ++ [Call.end_]))).2 "b.json" = none := by
  have hne : "b.json" ≠ "a.json" := by decide
  refine ⟨?_, ⟨"\x7b\"otherData\": \x7b\x7d,\"traceEvents\":[\n".data, rfl⟩, ?_, ?_, ?_⟩
  · rw [run_append, session_closed exampleOps Profiler.init _ "A" "p.json" [] rfl,
      unended_attached exampleOps _ _ "B" "p.json" "p.json" _ rfl]
    simp only [Function.update_same, eventLines_nil]
    rfl
  · rw [run_append, session_closed exampleOps Profiler.init _ "A" "p.json" [] rfl,
      unended_attached exampleOps _ _ "B" "p.json" "p.json" _ rfl]
  · rw [run_append, session_closed exampleOps Profiler.init _ "A" "a.json" [] rfl,
      unended_attached exampleOps _ _ "B" "b.json" "a.json" _ rfl]
  · rw [two_sessions]
    dsimp only
    rw [Function.update_noteq hne]

/-! ## Region labels -/

namespace Binary64

theorem floor_le_roundHalfEven (q : ℚ) : ⌊q⌋ ≤ roundHalfEven q := by
  unfold roundHalfEven
  split_ifs <;> omega

theorem roundHalfEven_le_floor_succ (q : ℚ) : roundHalfEven q ≤ ⌊q⌋ + 1 := by
  unfold roundHalfEven
  split_ifs <;> omega

theorem roundHalfEven_intCast (n : ℤ) : roundHalfEven (n : ℚ) = n := by
  unfold roundHalfEven
  simp

/-- Rounding to the nearest integer is monotone. -/
theorem roundHalfEven_mono {q r : ℚ} (h : q ≤ r) : roundHalfEven q ≤ roundHalfEven r := by
  have hf : ⌊q⌋ ≤ ⌊r⌋ := Int.floor_mono h
  rcases lt_or_eq_of_le hf with hlt | heq
  · calc roundHalfEven q ≤ ⌊q⌋ + 1 := roundHalfEven_le_floor_succ q
      _ ≤ ⌊r⌋ := hlt
      _ ≤ roundHalfEven r := floor_le_roundHalfEven r
  · unfold roundHalfEven
    rw [← heq]
    split_ifs <;> first | omega | linarith

theorem roundMagnitude_nonneg {a : ℚ} (h : 0 ≤ a) : 0 ≤ roundMagnitude a := by
  unfold roundMagnitude
  have hp : (0 : ℚ) < 2 ^ ulpExponent a := by positivity
  have h0 : (0 : ℤ) ≤ roundHalfEven (a / 2 ^ ulpExponent a) := by
    have := roundHalfEven_mono (show (0 : ℚ) ≤ a / 2 ^ ulpExponent a by positivity)
    rwa [show (0 : ℚ) = ((0 : ℤ) : ℚ) by simp, roundHalfEven_intCast] at this
  have : (0 : ℚ) ≤ (roundHalfEven (a / 2 ^ ulpExponent a) : ℚ) := by exact_mod_cast h0
  positivity

theorem roundMagnitude_zero : roundMagnitude 0 = 0 := by
  unfold roundMagnitude
  rw [zero_div, show (0 : ℚ) = ((0 : ℤ) : ℚ) by simp, roundHalfEven_intCast]
  simp

/-- A magnitude rounds at most to the power of two that closes its binade. -/
theorem roundMagnitude_le_pow (a : ℚ) :
    roundMagnitude a ≤ 2 ^ (max (Int.log 2 a) (-1022) + 1) := by
  unfold roundMagnitude
  have hp : (0 : ℚ) < 2 ^ ulpExponent a := by positivity
  have hlt : a < (2 : ℚ) ^ (Int.log 2 a + 1) := by
    have := Int.lt_zpow_succ_log_self (b := 2) (by norm_num) a
    simpa using this
  have hle : (2 : ℚ) ^ (Int.log 2 a + 1) ≤ 2 ^ (max (Int.log 2 a) (-1022) + 1) :=
    zpow_le_zpow_right₀ (by norm_num) (by omega)
  have hsplit : (2 : ℚ) ^ (max (Int.log 2 a) (-1022) + 1) = ((2 ^ 53 : ℤ) : ℚ) * 2 ^ ulpExponent a := by
    unfold ulpExponent
    rw [show max (Int.log 2 a) (-1022) + 1 = 53 + (max (Int.log 2 a) (-1022) - 52) by ring,
      zpow_add₀ (by norm_num)]
    norm_num
  have hq : a / 2 ^ ulpExponent a ≤ ((2 ^ 53 : ℤ) : ℚ) := by
    rw [div_le_iff₀ hp, ← hsplit]
    exact le_of_lt (lt_of_lt_of_le hlt hle)
  have hr := roundHalfEven_mono hq
  rw [roundHalfEven_intCast] at hr
  rw [hsplit]
  have : (roundHalfEven (a / 2 ^ ulpExponent a) : ℚ) ≤ ((2 ^ 53 : ℤ) : ℚ) := by exact_mod_cast hr
  exact mul_le_mul_of_nonneg_right this hp.le

/-- A normal magnitude rounds at least to the power of two that opens its binade. -/
theorem pow_le_roundMagnitude {a : ℚ} (ha : 0 < a) (hn : -1022 ≤ Int.log 2 a) :
    (2 : ℚ) ^ (Int.log 2 a) ≤ roundMagnitude a := by
  unfold roundMagnitude
  have hp : (0 : ℚ) < 2 ^ ulpExponent a := by positivity
  have hge : (2 : ℚ) ^ (Int.log 2 a) ≤ a := by
    have := Int.zpow_log_le_self (b := 2) (by norm_num) ha
    simpa using this
  have hsplit : (2 : ℚ) ^ (Int.log 2 a) = ((2 ^ 52 : ℤ) : ℚ) * 2 ^ ulpExponent a := by
    unfold ulpExponent
    rw [max_eq_left hn]
    rw [show Int.log 2 a = 52 + (Int.log 2 a - 52) by ring,
      zpow_add₀ (by norm_num)]
    norm_num
  have hq : ((2 ^ 52 : ℤ) : ℚ) ≤ a / 2 ^ ulpExponent a := by
    rw [le_div_iff₀ hp, ← hsplit]
    exact hge
  have hr := roundHalfEven_mono hq
  rw [roundHalfEven_intCast] at hr
  rw [hsplit]
  have : ((2 ^ 52 : ℤ) : ℚ) ≤ (roundHalfEven (a / 2 ^ ulpExponent a) : ℚ) := by exact_mod_cast hr
  exact mul_le_mul_of_nonneg_right this hp.le

/-- Rounding of magnitudes is monotone. -/
theorem roundMagnitude_mono {a b : ℚ} (ha : 0 ≤ a) (h : a ≤ b) :
    roundMagnitude a ≤ roundMagnitude b := by
  rcases eq_or_lt_of_le ha with h0 | hpos
  · rw [← h0, roundMagnitude_zero]
    exact roundMagnitude_nonneg (le_trans ha h)
  · have hb : 0 < b := lt_of_lt_of_le hpos h
    have hlog : Int.log 2 a ≤ Int.log 2 b := Int.log_mono_right hpos h
    by_cases he : max (Int.log 2 a) (-1022) = max (Int.log 2 b) (-1022)
    · have hu : ulpExponent a = ulpExponent b := by unfold ulpExponent; rw [he]
      unfold roundMagnitude
      rw [hu]
      have hp : (0 : ℚ) < 2 ^ ulpExponent b := by positivity
      have hq : a / 2 ^ ulpExponent b ≤ b / 2 ^ ulpExponent b :=
        div_le_div_of_nonneg_right h hp.le
      have hr := roundHalfEven_mono hq
      have : (roundHalfEven (a / 2 ^ ulpExponent b) : ℚ) ≤ (roundHalfEven (b / 2 ^ ulpExponent b) : ℚ) := by
        exact_mod_cast hr
      exact mul_le_mul_of_nonneg_right this hp.le
    · have hlt : max (Int.log 2 a) (-1022) + 1 ≤ Int.log 2 b := by omega
      have hn : -1022 ≤ Int.log 2 b := by omega
      calc roundMagnitude a ≤ 2 ^ (max (Int.log 2 a) (-1022) + 1) := roundMagnitude_le_pow a
        _ ≤ 2 ^ (Int.log 2 b) := zpow_le_zpow_right₀ (by norm_num) hlt
        _ ≤ roundMagnitude b := pow_le_roundMagnitude hb hn

theorem round_zero : round 0 = 0 := by
  unfold round
  simp [roundMagnitude_zero]

/-- Rounding to binary64 is monotone. -/
theorem round_mono {x y : ℚ} (h : x ≤ y) : round x ≤ round y := by
  unfold round
  split_ifs with hx hy hy
  · exact neg_le_neg (roundMagnitude_mono (by linarith) (by linarith))
  · have h1 := roundMagnitude_nonneg (show (0 : ℚ) ≤ -x by linarith)
    have h2 := roundMagnitude_nonneg (show (0 : ℚ) ≤ y by linarith)
    linarith
  · linarith
  · exact roundMagnitude_mono (by linarith) h

end Binary64

/-! ## Scoped timers -/

theorem finish_ge (b : Block) (now : Int) : now ≤ b.finish now := by
  induction b generalizing now with
  | done => exact le_refl _
  | work ns next ih =>
    have := ih (now + ns)
    simp only [Block.finish]
    omega
  | scope name body next ihb ihn =>
    simp only [Block.finish]
    exact le_trans (ihb now) (ihn _)

/-- Executing a block amounts to one `write` call per timer, in the order of the scope
exits. -/
theorem exec_eq_run {D : Type} (ops : DoubleOps D) (tid : Nat) (b : Block) (m : Machine) :
    b.exec ops tid m
      = { now := b.finish m.now
          prof := (Profiler.run ops (m.prof, m.fs)
            ((b.exitEvents ops tid m.now).map Call.write)).1
          fs := (Profiler.run ops (m.prof, m.fs)
            ((b.exitEvents ops tid m.now).map Call.write)).2 } := by
  induction b generalizing m with
  | done => rfl
  | work ns next ih =>
    simp only [Block.exec, Block.finish, Block.exitEvents]
    rw [ih]
  | scope name body next ihb ihn =>
    simp only [Block.exec, Block.finish, Block.exitEvents]
    rw [ihn, ihb]
    simp only [List.map_append, List.map_cons, run_append]
    rfl

theorem finish_append (a b : Block) (now : Int) :
    (Block.append a b).finish now = b.finish (a.finish now) := by
  induction a generalizing now with
  | done => rfl
  | work ns next ih => simp only [Block.append, Block.finish, ih]
  | scope name body next _ ihn => simp only [Block.append, Block.finish, ihn]

/-- The timestamps a timer reports are ordered, and so is their difference with zero. -/
theorem stopEvent_ordered (general : Nat → ℚ → String) (name : String) (tid : Nat)
    (start stop : Int) (h : start ≤ stop) :
    ((InstrumentationTimer.create name start).stopEvent (Binary64.ops general) stop tid).start
        ≤ ((InstrumentationTimer.create name start).stopEvent (Binary64.ops general) stop tid).end_
      ∧ 0 ≤ (Binary64.ops general).sub
          ((InstrumentationTimer.create name start).stopEvent (Binary64.ops general) stop tid).end_
          ((InstrumentationTimer.create name start).stopEvent (Binary64.ops general) stop
            tid).start := by
  have h1 : Binary64.round (start : ℚ) ≤ Binary64.round (stop : ℚ) :=
    Binary64.round_mono (by exact_mod_cast h)
  have h2 : Binary64.round (Binary64.round (start : ℚ) / 1000)
      ≤ Binary64.round (Binary64.round (stop : ℚ) / 1000) :=
    Binary64.round_mono (div_le_div_of_nonneg_right h1 (by norm_num))
  refine ⟨h2, ?_⟩
  have h3 := Binary64.round_mono (sub_nonneg.mpr h2)
  rw [Binary64.round_zero] at h3
  exact h3

theorem exitEvents_ordered (general : Nat → ℚ → String) (tid : Nat) (b : Block) (now : Int) :
    ∀ ev ∈ b.exitEvents (Binary64.ops general) tid now,
      ev.start ≤ ev.end_ ∧ 0 ≤ (Binary64.ops general).sub ev.end_ ev.start := by
  induction b generalizing now with
  | done => simp [Block.exitEvents]
  | work ns next ih => exact ih _
  | scope name body next ihb ihn =>
    intro ev hev
    simp only [Block.exitEvents, List.mem_append, List.mem_cons] at hev
    rcases hev with hev | rfl | hev
    · exact ihb _ ev hev
    · exact stopEvent_ordered general name tid now (body.finish now) (finish_ge body now)
    · exact ihn _ ev hev

/-- C7 (P5, duration non-negativity): the timers of a block make exactly the `write` calls
of their scope exits, each with the readings of the steady clock at construction and at
destruction, converted to `double` and divided by `1000.0`; in binary64 arithmetic every
such event has start ≤ end and a duration end - start ≥ 0. -/
theorem timer_duration_nonneg (general : Nat → ℚ → String) (tid : Nat) (b : Block)
    (m : Machine) :
    b.exec (Binary64.ops general) tid m
        = { now := b.finish m.now
            prof := (Profiler.run (Binary64.ops general) (m.prof, m.fs)
              ((b.exitEvents (Binary64.ops general) tid m.now).map Call.write)).1
            fs := (Profiler.run (Binary64.ops general) (m.prof, m.fs)
              ((b.exitEvents (Binary64.ops general) tid m.now).map Call.write)).2 }
      ∧ List.Forall
          (fun ev : Event ℚ =>
            ev.start ≤ ev.end_ ∧ 0 ≤ (Binary64.ops general).sub ev.end_ ev.start)
          (b.exitEvents (Binary64.ops general) tid m.now)
      ∧ ∀ (name : String) (start stop : Int),
          (InstrumentationTimer.create name start).stopEvent (Binary64.ops general) stop tid
            = { name := name
                start := Binary64.round (Binary64.round (start : ℚ) / 1000)
                end_ := Binary64.round (Binary64.round (stop : ℚ) / 1000)
                threadID := tid } := by
  refine ⟨exec_eq_run _ tid b m, ?_, fun _ _ _ => rfl⟩
  rw [List.forall_iff_forall_mem]
  exact exitEvents_ordered general tid b m.now

/-! ## An evaluated session -/

namespace Binary64

/-- A magnitude that is a multiple of its unit in the last place is not changed. -/
theorem roundMagnitude_exact (a : ℚ) (k : ℤ) (h : a / 2 ^ ulpExponent a = k) :
    roundMagnitude a = a := by
  unfold roundMagnitude
  rw [h, roundHalfEven_intCast, ← h]
  have hp : (0 : ℚ) < 2 ^ ulpExponent a := by positivity
  field_simp

/-- Integers below `2 ^ 53` are represented exactly. -/
theorem round_natCast (n : ℕ) (h : n < 2 ^ 53) : round (n : ℚ) = n := by
  have hnn : ¬ ((n : ℚ) < 0) := not_lt.mpr (Nat.cast_nonneg n)
  unfold round
  rw [if_neg hnn]
  rcases Nat.eq_zero_or_pos n with rfl | hpos
  · simpa using roundMagnitude_zero
  · have hlog : Int.log 2 (n : ℚ) = Nat.log 2 n := Int.log_natCast 2 n
    have hle : Nat.log 2 n < 53 := by
      apply Nat.log_lt_of_lt_pow (by omega) h
    have hu : ulpExponent (n : ℚ) = -((52 - Nat.log 2 n : ℕ) : ℤ) := by
      unfold ulpExponent
      rw [hlog]
      omega
    apply roundMagnitude_exact (n : ℚ) ((n * 2 ^ (52 - Nat.log 2 n) : ℕ) : ℤ)
    rw [hu, zpow_neg, zpow_natCast]
    push_cast
    field_simp


/-- Fixed notation with three decimals of a natural number. -/
theorem formatFixed_natCast (n : ℕ) : formatFixed 3 (n : ℚ) = toString n ++ ".000" := by
  have hnn : ¬ ((n : ℚ) < 0) := not_lt.mpr (Nat.cast_nonneg n)
  have habs : |(n : ℚ)| * 10 ^ 3 = (((n * 1000 : ℕ) : ℤ) : ℚ) := by
    rw [abs_of_nonneg (Nat.cast_nonneg n)]
    push_cast
    norm_num
  unfold formatFixed
  rw [habs, roundHalfEven_intCast, if_neg hnn]
  simp only [Int.toNat_ofNat]
  have h1 : n * 1000 / 10 ^ 3 = n := by omega
  have h2 : n * 1000 % 10 ^ 3 = 0 := by omega
  rw [h1, h2]
  rfl

end Binary64

/-- Scenario A of the specification, evaluated: one timer "foo" that lives from
5000 ns to 100005000 ns of the steady clock, in a session on a fresh recorder. -/
theorem scenario_A :
    ((((Block.scope "foo" (Block.work 100000000 Block.done) Block.done).exec exampleOps 7
          { now := 5000
            prof := (Profiler.init.begin (fun _ => none) "S" "out.json").1
            fs := (Profiler.init.begin (fun _ => none) "S" "out.json").2 }).prof.end_
        ((Block.scope "foo" (Block.work 100000000 Block.done) Block.done).exec exampleOps 7
          { now := 5000
            prof := (Profiler.init.begin (fun _ => none) "S" "out.json").1
            fs := (Profiler.init.begin (fun _ => none) "S" "out.json").2 }).fs).2 "out.json")
      = some ("\x7b\"otherData\": \x7b\x7d,\"traceEvents\":[\n"
          ++ "\x7b\"cat\":\"function\",\"dur\":100000.000,\"name\":\"foo\",\"ph\":\"X\","
          ++ "\"pid\":0,\"tid\":7,\"ts\":5.000\x7d,\n"
          ++ "\x7b\x7d ]\x7d\n") := by
  have hstart : Binary64.round (Binary64.round ((5000 : ℤ) : ℚ) / 1000) = 5 := by
    have h1 := Binary64.round_natCast 5000 (by norm_num)
    have h2 := Binary64.round_natCast 5 (by norm_num)
    push_cast at h1 h2 ⊢
    rw [h1]
    norm_num
    exact h2
  have hend : Binary64.round (Binary64.round (((5000 + (100000000 : ℕ) : ℤ)) : ℚ) / 1000)
      = 100005 := by
    have h1 := Binary64.round_natCast 100005000 (by norm_num)
    have h2 := Binary64.round_natCast 100005 (by norm_num)
    push_cast at h1 h2 ⊢
    rw [h1]
    norm_num
    exact h2
  have hdur : Binary64.round ((100005 : ℚ) - 5) = 100000 := by
    have h2 := Binary64.round_natCast 100000 (by norm_num)
    push_cast at h2
    norm_num
    exact h2
  have hf1 : Binary64.formatFixed 3 (100000 : ℚ) = "100000.000" := by
    have := Binary64.formatFixed_natCast 100000
    push_cast at this
    rw [this]
    decide
  have hf2 : Binary64.formatFixed 3 (5 : ℚ) = "5.000" := by
    have := Binary64.formatFixed_natCast 5
    push_cast at this
    rw [this]
    decide
  have hs : exampleOps.div (exampleOps.ofInt64 5000) exampleOps.thousand = 5 := hstart
  have he : exampleOps.div (exampleOps.ofInt64 (5000 + (100000000 : ℕ))) exampleOps.thousand
      = 100005 := hend
  have hd : exampleOps.sub 100005 5 = 100000 := hdur
  have hfmt : ∀ x : ℚ, exampleOps.format true 3 x = Binary64.formatFixed 3 x := fun _ => rfl
  rw [begin_closed _ _ _ _ rfl, exec_eq_run]
  simp only [Block.exitEvents, Block.finish, List.nil_append, InstrumentationTimer.stopEvent,
    InstrumentationTimer.create]
  rw [hs, he]
  rw [run_writes_good exampleOps _ _ _ "out.json" headerText rfl rfl rfl rfl rfl]
  rw [end_good _ _ "out.json" rfl rfl rfl, appendTo_appendTo]
  simp only [appendTo, Function.update_same, eventLines_cons, eventLines_nil, Event.line,
    eventLine, hd, hfmt, hf1, hf2]
  decide

end tool.prof
